import Mathlib

/-
Verification of the license-guardian dependency-license compliance checker.

The definitions below are a shallow embedding of the core logic of
src/checker.ts.  Effectful inputs (file reads, directory listings, JSON
parsing) are made explicit as parameters:

* a config file read is a ConfigReadResult (threw, or parsed object),
* the file tree walked by workspace discovery is an FSTree,
* a workspace descriptor read is a ReadResult WorkspaceDescriptor,
* the installed dependency lookup (realpathSync + readFileSync + JSON.parse
  of dir/node_modules/name/package.json) is a function
  String -> Option DepDescriptor, with none meaning the read failed.

JavaScript strings are modelled as Lean String; toUpperCase is modelled via
Char.toUpper (the ASCII case mapping, which agrees with JavaScript on ASCII
text).  JavaScript objects used as string-keyed maps are modelled as
association lists with the JavaScript assignment semantics (update in place
when the key exists, else append at the end).
-/

/-- Does the list `l` start with `pat`?  Used to model JavaScript
String.prototype.includes via character lists. -/
def headMatch : List Char → List Char → Bool
  | [], _ => true
  | _ :: _, [] => false
  | a :: as, b :: bs => a == b && headMatch as bs

/-- Does the list `l` contain `pat` as a contiguous run?  Model of
JavaScript String.prototype.includes over character lists. -/
def hasSubstr : List Char → List Char → Bool
  | [], pat => pat.isEmpty
  | c :: t, pat => headMatch pat (c :: t) || hasSubstr t pat

theorem headMatch_iff (pat l : List Char) :
    headMatch pat l = true ↔ ∃ t, l = pat ++ t := by
  induction pat generalizing l with
  | nil => simp [headMatch]
  | cons a as ih =>
    cases l with
    | nil => simp [headMatch]
    | cons b bs =>
      simp only [headMatch, Bool.and_eq_true, beq_iff_eq, ih, List.cons_append,
        List.cons.injEq]
      constructor
      · rintro ⟨rfl, t, rfl⟩
        exact ⟨t, rfl, rfl⟩
      · rintro ⟨t, rfl, rfl⟩
        exact ⟨rfl, t, rfl⟩

theorem hasSubstr_iff (l pat : List Char) :
    hasSubstr l pat = true ↔ ∃ pre post, l = pre ++ pat ++ post := by
  induction l with
  | nil =>
    simp only [hasSubstr, List.isEmpty_iff]
    constructor
    · rintro rfl
      exact ⟨[], [], rfl⟩
    · rintro ⟨pre, post, h⟩
      rcases List.append_eq_nil.mp h.symm with ⟨h1, h2⟩
      exact (List.append_eq_nil.mp h1).2
  | cons c t ih =>
    simp only [hasSubstr, Bool.or_eq_true, headMatch_iff, ih]
    constructor
    · rintro (⟨t1, ht⟩ | ⟨pre, post, rfl⟩)
      · exact ⟨[], t1, by simpa using ht⟩
      · exact ⟨c :: pre, post, by simp⟩
    · rintro ⟨pre, post, h⟩
      cases pre with
      | nil =>
        left
        exact ⟨post, by simpa using h⟩
      | cons d ds =>
        right
        rw [List.cons_append, List.cons_append] at h
        have h2 : t = ds ++ pat ++ post := by
          have := List.tail_eq_of_cons_eq h
          simpa using this
        exact ⟨ds, post, h2⟩

theorem hasSubstr_nil (l : List Char) : hasSubstr l [] = true := by
  exact (hasSubstr_iff l []).mpr ⟨[], l, by simp⟩

/-- Model of JavaScript String.prototype.toUpperCase on ASCII text. -/
def upperStr (s : String) : String := ⟨s.data.map Char.toUpper⟩

/-- Model of JavaScript String.prototype.includes. -/
def strIncludes (s pat : String) : Bool := hasSubstr s.data pat.data

/-- src/checker.ts lines 12-22: the built-in default allowlist. -/
def DEFAULT_ALLOWED_LICENSES : List String :=
  ["MIT", "Apache-2.0", "BSD-2-Clause", "BSD-3-Clause", "ISC", "0BSD",
   "CC0-1.0", "Python-2.0", "Unlicense"]

/-- src/checker.ts lines 24-31: the fixed prohibited patterns.  Each source
regex is a case-insensitive literal, so it is modelled by its literal text. -/
def PROHIBITED_PATTERNS : List String :=
  ["GPL", "LGPL", "AGPL", "SSPL", "BUSL", "Copyleft"]

/-- Model of `/pat/i.test s` for a regex that is a literal: case-insensitive
containment of the literal text. -/
def regexTestCI (pat s : String) : Bool :=
  strIncludes (upperStr s) (upperStr pat)

/-- src/checker.ts lines 141-159 (isLicenseAllowed).  The JavaScript guard
`!license` is true exactly for the empty string, and the loop over
PROHIBITED_PATTERNS returning false on the first match is List.any. -/
def isLicenseAllowed (license : String) (allowedLicenses : List String) : Bool :=
  if license = "" ∨ license = "UNKNOWN" then
    false
  else if PROHIBITED_PATTERNS.any (fun pat => regexTestCI pat license) then
    false
  else
    allowedLicenses.any (fun allowed =>
      strIncludes (upperStr license) (upperStr allowed))

/-- Outcome of reading and parsing the optional .licenserc.json config file:
either the read or parse threw, or it produced an object whose
allowedLicenses field is absent (or null) or present with a string list. -/
inductive ConfigReadResult where
  | failure : ConfigReadResult
  | parsed : Option (List String) → ConfigReadResult

/-- src/checker.ts lines 35-43 (loadConfig): on any read or parse failure,
or when the allowedLicenses field is absent, fall back to the built-in
default list; otherwise return the configured list. -/
def loadConfig : ConfigReadResult → List String
  | ConfigReadResult.failure => DEFAULT_ALLOWED_LICENSES
  | ConfigReadResult.parsed none => DEFAULT_ALLOWED_LICENSES
  | ConfigReadResult.parsed (some allowedLicenses) => allowedLicenses

/-- A file tree as seen by the recursive directory walk.  A baddir is a
directory entry whose dirent reports isDirectory but whose readdirSync
throws (permission denied, broken state); file entries never match
isDirectory. -/
inductive FSTree where
  | file : FSTree
  | baddir : FSTree
  | dir : List (String × FSTree) → FSTree

/-- Model of dirent.isDirectory for the entries of an FSTree directory. -/
def FSTree.isDir : FSTree → Bool
  | FSTree.dir _ => true
  | FSTree.baddir => true
  | FSTree.file => false

/-- src/checker.ts lines 54-64: the fixed set of directory names that the
walk skips entirely. -/
def excludedDirNames : List String :=
  ["node_modules", ".git", ".turbo", ".next", "dist", "coverage", "build"]

/-- src/checker.ts lines 45-81 (findAllPackageJsonDirs).  Paths are lists
of components relative to the root.  The source loops over readdirSync
entries pushing into a shared results array; that loop is expressed here by
recursion on the entry list, concatenating the contribution of each entry
in order.  A read failure (baddir at the top of a recursive call) is caught
and contributes nothing. -/
def findAllPackageJsonDirs (path : List String) : FSTree → List (List String)
  | FSTree.file => []
  | FSTree.baddir => []
  | FSTree.dir [] => []
  | FSTree.dir ((name, sub) :: rest) =>
    (if name ∈ excludedDirNames then []
     else if sub.isDir then findAllPackageJsonDirs (path ++ [name]) sub
     else if name = "package.json" then [path]
     else []) ++ findAllPackageJsonDirs path (FSTree.dir rest)

/-- src/checker.ts lines 83-89 (getWorkspaceDirs): run the walk at the
root (path []) and drop the root itself from the results. -/
def getWorkspaceDirs (root : FSTree) : List (List String) :=
  (findAllPackageJsonDirs [] root).filter (fun dir => decide (dir ≠ []))

/-- Every directory recorded by the walk lies strictly under the starting
path, and no component added below the starting path is an excluded name. -/
theorem findAll_suffix (path : List String) (t : FSTree) :
    ∀ p ∈ findAllPackageJsonDirs path t,
      ∃ s, p = path ++ s ∧ ∀ c ∈ s, c ∉ excludedDirNames := by
  induction path, t using findAllPackageJsonDirs.induct with
  | case1 path => simp [findAllPackageJsonDirs]
  | case2 path => simp [findAllPackageJsonDirs]
  | case3 path => simp [findAllPackageJsonDirs]
  | case4 path name sub rest ih1 ih2 =>
    intro p hp
    rw [findAllPackageJsonDirs] at hp
    rcases List.mem_append.mp hp with h | h
    · by_cases hex : name ∈ excludedDirNames
      · simp [hex] at h
      · rw [if_neg hex] at h
        by_cases hd : sub.isDir = true
        · rw [if_pos hd] at h
          obtain ⟨s, hs, hcl⟩ := ih1 p h
          refine ⟨name :: s, ?_, ?_⟩
          · simpa [List.append_assoc] using hs
          · intro c hc
            rcases List.mem_cons.mp hc with rfl | hc
            · exact hex
            · exact hcl c hc
        · rw [if_neg hd] at h
          by_cases hpj : name = "package.json"
          · rw [if_pos hpj] at h
            simp only [List.mem_singleton] at h
            exact ⟨[], by simp [h], by simp⟩
          · simp [hpj] at h
    · exact ih2 p h

/-- The fields of an installed package descriptor that license resolution
reads; a missing or non-string (falsy) field is none. -/
structure DepDescriptor where
  license : Option String
  version : Option String
deriving DecidableEq

/-- The fields of a workspace package.json that license resolution can see.
The devDependencies field is carried so that theorems can speak about it;
the source only ever reads dependencies. -/
structure WorkspaceDescriptor where
  dependencies : Option (List (String × String))
  devDependencies : Option (List (String × String))

/-- Outcome of a readFileSync + JSON.parse that is wrapped in try/catch. -/
inductive ReadResult (α : Type) where
  | failure : ReadResult α
  | success : α → ReadResult α

/-- The value of ResolvedPackage entries: license and version strings. -/
structure PackageInfo where
  license : String
  version : String
deriving DecidableEq

/-- JavaScript `x || d` for an optional string field: absent, null and the
empty string all fall back to the default. -/
def jsOrDefault : Option String → String → String
  | none, d => d
  | some s, d => if s = "" then d else s

/-- JavaScript object assignment m[key] = value for a string-keyed object
modelled as an association list: an existing key keeps its position and has
its value updated, a new key is appended at the end. -/
def recordInsert : List (String × PackageInfo) → String → PackageInfo →
    List (String × PackageInfo)
  | [], key, value => [(key, value)]
  | (k, v) :: rest, key, value =>
    if k = key then (key, value) :: rest
    else (k, v) :: recordInsert rest key value

/-- src/checker.ts lines 100-121: the loop over Object.entries of the
dependencies field.  For each declared name, the installed descriptor is
looked up; on failure the dependency is skipped, on success an entry keyed
name@version is written into the licenses object. -/
def resolveDeps (installed : String → Option DepDescriptor) :
    List (String × String) → List (String × PackageInfo) →
    List (String × PackageInfo)
  | [], licenses => licenses
  | (name, _) :: rest, licenses =>
    match installed name with
    | none => resolveDeps installed rest licenses
    | some dep =>
      resolveDeps installed rest
        (recordInsert licenses
          (name ++ "@" ++ jsOrDefault dep.version "UNKNOWN")
          { license := jsOrDefault dep.license "UNKNOWN",
            version := jsOrDefault dep.version "UNKNOWN" })

/-- src/checker.ts lines 91-127 (getLicensesFromPackageJson): a failed
descriptor read yields the empty mapping; otherwise the dependencies field
(defaulting to the empty object) is resolved.  devDependencies is never
consulted. -/
def getLicensesFromPackageJson (descriptor : ReadResult WorkspaceDescriptor)
    (installed : String → Option DepDescriptor) : List (String × PackageInfo) :=
  match descriptor with
  | ReadResult.failure => []
  | ReadResult.success packageJson =>
    resolveDeps installed (packageJson.dependencies.getD []) []

/-- The key that the resolution loop would write for a declared dependency
name, if its installed descriptor can be read. -/
def emittedKey (installed : String → Option DepDescriptor) (name : String) :
    Option String :=
  (installed name).map (fun dep => name ++ "@" ++ jsOrDefault dep.version "UNKNOWN")

/-- Model of Object.assign target source for string-keyed objects. -/
def objectAssign (target source : List (String × PackageInfo)) :
    List (String × PackageInfo) :=
  source.foldl (fun acc p => recordInsert acc p.1 p.2) target

/-- src/checker.ts lines 129-139 (getLicenses): merge the per-workspace
mappings in discovery order with Object.assign. -/
def getLicenses
    (workspaces : List (ReadResult WorkspaceDescriptor × (String → Option DepDescriptor))) :
    List (String × PackageInfo) :=
  workspaces.foldl
    (fun allLicenses ws => objectAssign allLicenses (getLicensesFromPackageJson ws.1 ws.2))
    []

/-- One entry of the report violation list (types.ts Violation). -/
structure Violation where
  package : String
  license : String
  version : String
deriving DecidableEq

/-- The report summary counts (types.ts Summary). -/
structure Summary where
  total : Nat
  allowed : Nat
  violations : Nat
deriving DecidableEq

/-- The full report (types.ts LicenseReport), with the licenses mapping as
an association list in its iteration order. -/
structure LicenseReport where
  summary : Summary
  allowedLicenses : List String
  licenses : List (String × PackageInfo)
  violations : List Violation
deriving DecidableEq

/-- The violation record pushed at src/checker.ts lines 192-196: the
license field repeats the JavaScript `license || "UNKNOWN"` fallback. -/
def violationOf (entry : String × PackageInfo) : Violation :=
  { package := entry.1,
    license := if entry.2.license = "" then "UNKNOWN" else entry.2.license,
    version := entry.2.version }

/-- One iteration of the classification loop at src/checker.ts lines
184-198, over the running (allowed, violations, violation list) state. -/
def tallyStep (allowedLicenses : List String) (acc : Nat × Nat × List Violation)
    (entry : String × PackageInfo) : Nat × Nat × List Violation :=
  if isLicenseAllowed entry.2.license allowedLicenses then
    (acc.1 + 1, acc.2.1, acc.2.2)
  else
    (acc.1, acc.2.1 + 1, acc.2.2 ++ [violationOf entry])

/-- src/checker.ts lines 177-205 (checkLicenses), restricted to its pure
core: the effectful collaborators (loadConfig, getLicenses) are passed in
as the two arguments, and the console printing is dropped.  total is set
upfront to the number of keys of the mapping; the loop then counts each
entry and collects the violation list in iteration order. -/
def checkLicenses (allowedLicenses : List String)
    (licenses : List (String × PackageInfo)) : LicenseReport :=
  let tally := licenses.foldl (tallyStep allowedLicenses) (0, 0, [])
  { summary :=
      { total := licenses.length, allowed := tally.1, violations := tally.2.1 },
    allowedLicenses := allowedLicenses,
    licenses := licenses,
    violations := tally.2.2 }

theorem foldl_tallyStep (A : List String) (l : List (String × PackageInfo)) :
    ∀ a v w, l.foldl (tallyStep A) (a, v, w) =
      (a + (l.filter (fun q => isLicenseAllowed q.2.license A)).length,
       v + (l.filter (fun q => !isLicenseAllowed q.2.license A)).length,
       w ++ (l.filter (fun q => !isLicenseAllowed q.2.license A)).map violationOf) := by
  induction l with
  | nil => intro a v w; simp
  | cons q t ih =>
    intro a v w
    rw [List.foldl_cons]
    cases h : isLicenseAllowed q.2.license A
    · have hstep : tallyStep A (a, v, w) q = (a, v + 1, w ++ [violationOf q]) := by
        simp [tallyStep, h]
      rw [hstep, ih]
      simp only [Prod.mk.injEq]
      refine ⟨by simp [List.filter_cons, h], ?_, ?_⟩
      · simp only [List.filter_cons, h, Bool.not_false, if_pos, List.length_cons]
        omega
      · simp [List.filter_cons, h]
    · have hstep : tallyStep A (a, v, w) q = (a + 1, v, w) := by
        simp [tallyStep, h]
      rw [hstep, ih]
      simp only [Prod.mk.injEq]
      refine ⟨?_, by simp [List.filter_cons, h], by simp [List.filter_cons, h]⟩
      simp only [List.filter_cons, h, if_pos, List.length_cons]
      omega

theorem length_filter_split {α : Type} (p : α → Bool) (l : List α) :
    (l.filter p).length + (l.filter (fun a => !p a)).length = l.length := by
  induction l with
  | nil => simp
  | cons x t ih =>
    cases h : p x <;> simp [List.filter_cons, h] <;> omega

theorem recordInsert_mem_self (m : List (String × PackageInfo))
    (key : String) (value : PackageInfo) :
    (key, value) ∈ recordInsert m key value := by
  induction m with
  | nil => simp [recordInsert]
  | cons p rest ih =>
    obtain ⟨k, v⟩ := p
    by_cases h : k = key <;> simp [recordInsert, h, ih]

theorem recordInsert_mem_preserve {m : List (String × PackageInfo)}
    {key0 : String} {value0 : PackageInfo} {key : String} {value : PackageInfo}
    (hmem : (key0, value0) ∈ m) (hne : key0 ≠ key) :
    (key0, value0) ∈ recordInsert m key value := by
  induction m with
  | nil => simp at hmem
  | cons p rest ih =>
    obtain ⟨k, v⟩ := p
    by_cases h : k = key
    · rw [recordInsert, if_pos h]
      rcases List.mem_cons.mp hmem with heq | htail
      · cases heq
        exact absurd h hne
      · exact List.mem_cons_of_mem _ htail
    · rw [recordInsert, if_neg h]
      rcases List.mem_cons.mp hmem with heq | htail
      · exact heq ▸ List.mem_cons_self _ _
      · exact List.mem_cons_of_mem _ (ih htail)

theorem recordInsert_mem_src {m : List (String × PackageInfo)}
    {key : String} {value : PackageInfo} :
    ∀ p ∈ recordInsert m key value, p ∈ m ∨ p = (key, value) := by
  induction m with
  | nil => simp [recordInsert]
  | cons q rest ih =>
    obtain ⟨k, v⟩ := q
    intro p hp
    by_cases h : k = key
    · rw [recordInsert, if_pos h] at hp
      rcases List.mem_cons.mp hp with heq | htail
      · exact Or.inr heq
      · exact Or.inl (List.mem_cons_of_mem _ htail)
    · rw [recordInsert, if_neg h] at hp
      rcases List.mem_cons.mp hp with heq | htail
      · exact Or.inl (heq ▸ List.mem_cons_self _ _)
      · rcases ih p htail with hm | he
        · exact Or.inl (List.mem_cons_of_mem _ hm)
        · exact Or.inr he

/-- Persistence of the entry written for a declared dependency: if no other
declared name writes the same key, the entry written for this name is in
the final mapping. -/
theorem resolveDeps_mem_persist (installed : String → Option DepDescriptor)
    (name : String) (dep : DepDescriptor)
    (hinst : installed name = some dep) :
    ∀ (l : List (String × String)) (acc : List (String × PackageInfo)),
      (∀ q ∈ l, emittedKey installed q.1 = emittedKey installed name → q.1 = name) →
      ((∃ r, (name, r) ∈ l) ∨
        (name ++ "@" ++ jsOrDefault dep.version "UNKNOWN",
          ⟨jsOrDefault dep.license "UNKNOWN", jsOrDefault dep.version "UNKNOWN"⟩) ∈ acc) →
      (name ++ "@" ++ jsOrDefault dep.version "UNKNOWN",
        ⟨jsOrDefault dep.license "UNKNOWN", jsOrDefault dep.version "UNKNOWN"⟩) ∈
        resolveDeps installed l acc := by
  intro l
  induction l with
  | nil =>
    intro acc _ hpre
    rcases hpre with ⟨r, hr⟩ | hacc
    · simp at hr
    · simpa [resolveDeps] using hacc
  | cons q t ih =>
    intro acc hno hpre
    obtain ⟨n1, r1⟩ := q
    have hnot : ∀ q ∈ t, emittedKey installed q.1 = emittedKey installed name → q.1 = name :=
      fun q hq => hno q (List.mem_cons_of_mem _ hq)
    rw [resolveDeps]
    cases hi : installed n1 with
    | none =>
      refine ih acc hnot ?_
      rcases hpre with ⟨r, hr⟩ | hacc
      · rcases List.mem_cons.mp hr with heq | htail
        · exfalso
          have hn : n1 = name := (Prod.mk.injEq .. ▸ heq.symm).1
          rw [hn, hinst] at hi
          exact Option.noConfusion hi
        · exact Or.inl ⟨r, htail⟩
      · exact Or.inr hacc
    | some d1 =>
      by_cases hn : n1 = name
      · subst hn
        have hd : d1 = dep := by
          rw [hinst] at hi
          exact (Option.some.injEq .. ▸ hi.symm)
        subst hd
        exact ih _ hnot (Or.inr (recordInsert_mem_self _ _ _))
      · have hkeyne :
            name ++ "@" ++ jsOrDefault dep.version "UNKNOWN" ≠
              n1 ++ "@" ++ jsOrDefault d1.version "UNKNOWN" := by
          intro hk
          apply hn
          apply hno (n1, r1) (List.mem_cons_self _ _)
          simp only [emittedKey, hi, hinst, Option.map_some]
          exact congrArg some hk.symm
        refine ih _ hnot ?_
        rcases hpre with ⟨r, hr⟩ | hacc
        · rcases List.mem_cons.mp hr with heq | htail
          · exact absurd ((Prod.mk.injEq .. ▸ heq.symm).1) hn
          · exact Or.inl ⟨r, htail⟩
        · exact Or.inr (recordInsert_mem_preserve hacc hkeyne)

/-- The provenance predicate for resolved entries: the entry was written
for some declared name whose installed descriptor was readable, with the
key and value the loop computes for it. -/
def canonicalEntry (deps : List (String × String))
    (installed : String → Option DepDescriptor) (p : String × PackageInfo) : Prop :=
  ∃ n r d, (n, r) ∈ deps ∧ installed n = some d ∧
    p.1 = n ++ "@" ++ jsOrDefault d.version "UNKNOWN" ∧
    p.2 = ⟨jsOrDefault d.license "UNKNOWN", jsOrDefault d.version "UNKNOWN"⟩

theorem resolveDeps_canonical (deps : List (String × String))
    (installed : String → Option DepDescriptor) :
    ∀ (l : List (String × String)) (acc : List (String × PackageInfo)),
      (∀ q ∈ l, q ∈ deps) →
      (∀ p ∈ acc, canonicalEntry deps installed p) →
      ∀ p ∈ resolveDeps installed l acc, canonicalEntry deps installed p := by
  intro l
  induction l with
  | nil =>
    intro acc _ hacc p hp
    exact hacc p (by simpa [resolveDeps] using hp)
  | cons q t ih =>
    intro acc hsub hacc
    obtain ⟨n1, r1⟩ := q
    have hsub1 : ∀ q ∈ t, q ∈ deps := fun q hq => hsub q (List.mem_cons_of_mem _ hq)
    rw [resolveDeps]
    cases hi : installed n1 with
    | none => exact ih acc hsub1 hacc
    | some d1 =>
      refine ih _ hsub1 ?_
      intro p hp
      rcases recordInsert_mem_src p hp with hm | he
      · exact hacc p hm
      · refine ⟨n1, r1, d1, hsub (n1, r1) (List.mem_cons_self _ _), hi, ?_, ?_⟩
        · rw [he]
        · rw [he]

theorem strAppend_cancel_right (a b c : String) (h : a ++ c = b ++ c) : a = b := by
  have hd : a.data ++ c.data = b.data ++ c.data := by
    have := congrArg String.data h
    simpa using this
  have hlen : a.data.length = b.data.length := by
    have h2 := congrArg List.length hd
    rw [List.length_append, List.length_append] at h2
    omega
  obtain ⟨h1, _⟩ := List.append_inj hd hlen
  cases a with
  | mk da =>
    cases b with
    | mk db =>
      have hdd : da = db := by simpa using h1
      rw [hdd]

theorem jsOrDefault_ne_empty (o : Option String) : jsOrDefault o "UNKNOWN" ≠ "" := by
  cases o with
  | none => simp [jsOrDefault]
  | some s => by_cases h : s = "" <;> simp [jsOrDefault, h]

theorem resolveDeps_license_ne_empty (installed : String → Option DepDescriptor) :
    ∀ (l : List (String × String)) (acc : List (String × PackageInfo)),
      (∀ p ∈ acc, p.2.license ≠ "") →
      ∀ p ∈ resolveDeps installed l acc, p.2.license ≠ "" := by
  intro l
  induction l with
  | nil =>
    intro acc hacc p hp
    exact hacc p (by simpa [resolveDeps] using hp)
  | cons q t ih =>
    intro acc hacc
    obtain ⟨n1, r1⟩ := q
    rw [resolveDeps]
    cases hi : installed n1 with
    | none => exact ih acc hacc
    | some d1 =>
      refine ih _ ?_
      intro p hp
      rcases recordInsert_mem_src p hp with hm | he
      · exact hacc p hm
      · rw [he]
        exact jsOrDefault_ne_empty d1.license

/-- Every license string in a resolved per-workspace mapping is non-empty
(it is either the declared license text or the UNKNOWN sentinel). -/
theorem getLicensesFromPackageJson_license_ne_empty
    (descriptor : ReadResult WorkspaceDescriptor)
    (installed : String → Option DepDescriptor) :
    ∀ p ∈ getLicensesFromPackageJson descriptor installed, p.2.license ≠ "" := by
  cases descriptor with
  | failure => simp [getLicensesFromPackageJson]
  | success pj =>
    exact resolveDeps_license_ne_empty installed (pj.dependencies.getD []) [] (by simp)

theorem objectAssign_pred (P : String × PackageInfo → Prop) :
    ∀ (source target : List (String × PackageInfo)),
      (∀ p ∈ target, P p) → (∀ p ∈ source, P p) →
      ∀ p ∈ objectAssign target source, P p := by
  intro source
  induction source with
  | nil => intro target ht _ p hp; exact ht p (by simpa [objectAssign] using hp)
  | cons q t ih =>
    intro target ht hs p hp
    rw [objectAssign, List.foldl_cons] at hp
    refine ih (recordInsert target q.1 q.2) ?_ (fun x hx => hs x (List.mem_cons_of_mem _ hx)) p hp
    intro x hx
    rcases recordInsert_mem_src x hx with hm | he
    · exact ht x hm
    · rw [he]
      have := hs q (List.mem_cons_self _ _)
      simpa using this

/-- Every license string in the merged global mapping is non-empty. -/
theorem getLicenses_license_ne_empty
    (workspaces : List (ReadResult WorkspaceDescriptor × (String → Option DepDescriptor))) :
    ∀ p ∈ getLicenses workspaces, p.2.license ≠ "" := by
  suffices haux : ∀ (ws : List (ReadResult WorkspaceDescriptor × (String → Option DepDescriptor)))
      (acc : List (String × PackageInfo)), (∀ p ∈ acc, p.2.license ≠ "") →
      ∀ p ∈ ws.foldl
        (fun allLicenses w => objectAssign allLicenses (getLicensesFromPackageJson w.1 w.2))
        acc, p.2.license ≠ "" by
    exact haux workspaces [] (by simp)
  intro ws
  induction ws with
  | nil => intro acc hacc p hp; exact hacc p (by simpa using hp)
  | cons w t ih =>
    intro acc hacc p hp
    rw [List.foldl_cons] at hp
    refine ih _ ?_ p hp
    exact objectAssign_pred _ _ _ hacc (getLicensesFromPackageJson_license_ne_empty w.1 w.2)

/-- C1: a license string matching one of the fixed prohibited patterns
(GPL, LGPL, AGPL, SSPL, BUSL, Copyleft, case-insensitively) is rejected by
isLicenseAllowed for every allowlist, even when the license occurs verbatim
as an entry of that allowlist. -/
theorem C1_prohibited_precedence (license : String) (allowedLicenses : List String)
    (hmatch : PROHIBITED_PATTERNS.any (fun pat => regexTestCI pat license) = true) :
    isLicenseAllowed license allowedLicenses = false := by
  rw [isLicenseAllowed]
  by_cases h0 : license = "" ∨ license = "UNKNOWN"
  · rw [if_pos h0]
  · rw [if_neg h0, if_pos hmatch]

theorem C1_witness : isLicenseAllowed "GPL-3.0" ["GPL-3.0"] = false :=
  C1_prohibited_precedence "GPL-3.0" ["GPL-3.0"] (by decide)

/-- C2: loadConfig returns the fixed 9-entry default list verbatim when the
read or parse fails or the allowedLicenses field is absent, and returns
exactly the configured list, with no default entries merged in, when the
field is present; it is a total function of the read outcome, so it never
raises. -/
theorem C2_loadConfig_fallback :
    (∀ result : ConfigReadResult,
      (result = ConfigReadResult.failure ∨ result = ConfigReadResult.parsed none) →
        loadConfig result = DEFAULT_ALLOWED_LICENSES) ∧
    DEFAULT_ALLOWED_LICENSES =
      ["MIT", "Apache-2.0", "BSD-2-Clause", "BSD-3-Clause", "ISC", "0BSD",
       "CC0-1.0", "Python-2.0", "Unlicense"] ∧
    (∀ configured : List String,
      loadConfig (ConfigReadResult.parsed (some configured)) = configured) := by
  refine ⟨?_, rfl, fun _ => rfl⟩
  rintro r (rfl | rfl) <;> rfl

theorem C2_witness : loadConfig ConfigReadResult.failure = DEFAULT_ALLOWED_LICENSES :=
  C2_loadConfig_fallback.1 ConfigReadResult.failure (Or.inl rfl)

/-- C3: isLicenseAllowed rejects the empty string and the UNKNOWN sentinel
for every allowlist; for any other license matching no prohibited pattern
it returns true exactly when the uppercase form of the license contains the
uppercase form of at least one allowlist entry as a contiguous substring
(not exact equality), hence case-insensitive matching. -/
theorem C3_substring_semantics (license : String) (allowedLicenses : List String) :
    isLicenseAllowed "" allowedLicenses = false ∧
    isLicenseAllowed "UNKNOWN" allowedLicenses = false ∧
    (license ≠ "" → license ≠ "UNKNOWN" →
      PROHIBITED_PATTERNS.any (fun pat => regexTestCI pat license) = false →
      (isLicenseAllowed license allowedLicenses = true ↔
        ∃ allowed ∈ allowedLicenses, ∃ pre post,
          (upperStr license).data = pre ++ (upperStr allowed).data ++ post)) := by
  refine ⟨by simp [isLicenseAllowed], by simp [isLicenseAllowed], ?_⟩
  intro h1 h2 h3
  have hcond : ¬(license = "" ∨ license = "UNKNOWN") := by
    rintro (h | h)
    · exact h1 h
    · exact h2 h
  rw [isLicenseAllowed, if_neg hcond, if_neg (by simp [h3])]
  rw [List.any_eq_true]
  constructor
  · rintro ⟨a, ha, hb⟩
    exact ⟨a, ha, (hasSubstr_iff _ _).mp hb⟩
  · rintro ⟨a, ha, hsub⟩
    exact ⟨a, ha, (hasSubstr_iff _ _).mpr hsub⟩

theorem C3_witness :
    isLicenseAllowed "apache-2.0" ["Apache-2.0"] = true ↔
      ∃ allowed ∈ ["Apache-2.0"], ∃ pre post,
        (upperStr "apache-2.0").data = pre ++ (upperStr allowed).data ++ post :=
  (C3_substring_semantics "apache-2.0" ["Apache-2.0"]).2.2
    (by decide) (by decide) (by decide)

/-- C4: in every report produced by the evaluation, summary.total equals
summary.allowed plus summary.violations, both equal the number of keys of
the licenses mapping of the report, and the length of the violations list
equals summary.violations. -/
theorem C4_summary_invariant (allowedLicenses : List String)
    (licenses : List (String × PackageInfo)) :
    (checkLicenses allowedLicenses licenses).summary.total =
        (checkLicenses allowedLicenses licenses).summary.allowed +
          (checkLicenses allowedLicenses licenses).summary.violations ∧
    (checkLicenses allowedLicenses licenses).summary.total =
        ((checkLicenses allowedLicenses licenses).licenses.map Prod.fst).length ∧
    (checkLicenses allowedLicenses licenses).violations.length =
        (checkLicenses allowedLicenses licenses).summary.violations := by
  have h := foldl_tallyStep allowedLicenses licenses 0 0 []
  have hsplit := length_filter_split
    (fun q => isLicenseAllowed q.2.license allowedLicenses) licenses
  refine ⟨?_, ?_, ?_⟩
  · simp [checkLicenses, h]
    omega
  · simp [checkLicenses, h]
  · simp [checkLicenses, h]

/-- C5: a package.json descriptor anywhere inside a directory whose name is
in the fixed exclusion set never appears in the discovered workspace set:
every component of every discovered workspace path avoids the exclusion
set, so discovery never descended through an excluded entry. -/
theorem C5_discovery_exclusion (root : FSTree) (dir : List String)
    (hdir : dir ∈ getWorkspaceDirs root) :
    ∀ component ∈ dir, component ∉ excludedDirNames := by
  have hmem : dir ∈ findAllPackageJsonDirs [] root := List.mem_of_mem_filter hdir
  obtain ⟨s, hs, hclean⟩ := findAll_suffix [] root dir hmem
  intro component hc
  refine hclean component ?_
  rw [hs] at hc
  simpa using hc

def c5Tree : FSTree :=
  FSTree.dir
    [("node_modules", FSTree.dir [("pkg", FSTree.dir [("package.json", FSTree.file)])]),
     ("apps", FSTree.dir [("app1", FSTree.dir [("package.json", FSTree.file)])])]

theorem C5_witness : "apps" ∉ excludedDirNames :=
  C5_discovery_exclusion c5Tree ["apps", "app1"]
    (by simp [getWorkspaceDirs, c5Tree, findAllPackageJsonDirs, excludedDirNames,
      FSTree.isDir, List.filter])
    "apps" (by simp)

/-- The dependency list of the C6 counterexample workspace: two declared
names whose resolved entries collide on the same name@version key. -/
def c6Deps : List (String × String) := [("a@b", "*"), ("a", "*")]

/-- The installed packages of the C6 counterexample: the first declared
dependency omits the license field, the second carries MIT and a version
text that makes its key collide with the key of the first. -/
def c6Installed : String → Option DepDescriptor := fun name =>
  if name = "a@b" then some { license := none, version := some "1" }
  else if name = "a" then some { license := some "MIT", version := some "b@1" }
  else none

/-- C6 counterexample: this workspace declares the dependency a@b whose
installed descriptor omits the license field, yet the returned mapping
contains no entry with license UNKNOWN: the later dependency a resolves to
the same key a@b@1 and overwrites the UNKNOWN entry, so no violation
remains. -/
theorem C6_counterexample :
    ("a@b", "*") ∈ c6Deps ∧
    c6Installed "a@b" = some { license := none, version := some "1" } ∧
    getLicensesFromPackageJson
        (ReadResult.success { dependencies := some c6Deps, devDependencies := none })
        c6Installed =
      [("a@b@1", { license := "MIT", version := "b@1" })] ∧
    ∀ p ∈ getLicensesFromPackageJson
        (ReadResult.success { dependencies := some c6Deps, devDependencies := none })
        c6Installed, p.2.license ≠ "UNKNOWN" := by
  refine ⟨by decide, by decide, by decide, by decide⟩

/-- C6 amended: if additionally no other declared dependency of the same
workspace resolves to the same name@version key, then a declared dependency
whose installed descriptor omits the license field (or has it empty) yields
an entry with license UNKNOWN in the returned mapping, and the evaluation
classifies that license as not allowed for every allowlist. -/
theorem C6_unknown_license (deps : List (String × String))
    (devDeps : Option (List (String × String)))
    (installed : String → Option DepDescriptor)
    (name range : String) (dep : DepDescriptor)
    (hmem : (name, range) ∈ deps)
    (hinst : installed name = some dep)
    (hlic : dep.license = none ∨ dep.license = some "")
    (hnocollide : ∀ q ∈ deps,
      emittedKey installed q.1 = emittedKey installed name → q.1 = name) :
    ∃ info : PackageInfo,
      (name ++ "@" ++ info.version, info) ∈
        getLicensesFromPackageJson
          (ReadResult.success { dependencies := some deps, devDependencies := devDeps })
          installed ∧
      info.license = "UNKNOWN" ∧
      ∀ allowedLicenses, isLicenseAllowed info.license allowedLicenses = false := by
  have hunk : jsOrDefault dep.license "UNKNOWN" = "UNKNOWN" := by
    rcases hlic with h | h <;> simp [jsOrDefault, h]
  refine ⟨⟨jsOrDefault dep.license "UNKNOWN", jsOrDefault dep.version "UNKNOWN"⟩,
    ?_, hunk, ?_⟩
  · exact resolveDeps_mem_persist installed name dep hinst deps []
      (by simpa using hnocollide) (Or.inl ⟨range, hmem⟩)
  · intro allowedLicenses
    rw [hunk]
    simp [isLicenseAllowed]

/-- The workspace of the C6 witness: one MIT dependency and one dependency
whose installed descriptor has no license field. -/
def c6wDeps : List (String × String) := [("mit-pkg", "^1.0.0"), ("nolicense-pkg", "^2.0.0")]

def c6wInstalled : String → Option DepDescriptor := fun name =>
  if name = "mit-pkg" then some { license := some "MIT", version := some "1.0.0" }
  else if name = "nolicense-pkg" then some { license := none, version := some "2.0.0" }
  else none

theorem C6_witness :
    ∃ info : PackageInfo,
      ("nolicense-pkg" ++ "@" ++ info.version, info) ∈
        getLicensesFromPackageJson
          (ReadResult.success { dependencies := some c6wDeps, devDependencies := none })
          c6wInstalled ∧
      info.license = "UNKNOWN" ∧
      ∀ allowedLicenses, isLicenseAllowed info.license allowedLicenses = false :=
  C6_unknown_license c6wDeps none c6wInstalled "nolicense-pkg" "^2.0.0"
    { license := none, version := some "2.0.0" }
    (by decide) (by decide) (Or.inl rfl) (by decide)

/-- C7: license resolution reads only the dependencies field of the
workspace descriptor.  A package name listed under devDependencies but not
under dependencies never appears in the returned mapping (as the name part
of any of its name@version keys), whatever its installed state. -/
theorem C7_devdeps_never_read (deps devDeps : List (String × String))
    (installed : String → Option DepDescriptor) (pname : String)
    (_hdev : ∃ q ∈ devDeps, q.1 = pname)
    (hnotdep : ∀ q ∈ deps, q.1 ≠ pname) :
    ¬ ∃ info : PackageInfo,
      (pname ++ "@" ++ info.version, info) ∈
        getLicensesFromPackageJson
          (ReadResult.success { dependencies := some deps, devDependencies := some devDeps })
          installed := by
  rintro ⟨info, hmem⟩
  have hcanon := resolveDeps_canonical deps installed deps []
    (fun q hq => hq) (by simp) _ (by simpa [getLicensesFromPackageJson] using hmem)
  obtain ⟨n, r, d, hnd, hid, hkey, hval⟩ := hcanon
  have hver : info.version = jsOrDefault d.version "UNKNOWN" :=
    congrArg PackageInfo.version hval
  have hkey2 : pname ++ "@" ++ info.version =
      n ++ "@" ++ jsOrDefault d.version "UNKNOWN" := hkey
  rw [hver] at hkey2
  have hpn : pname ++ "@" = n ++ "@" := strAppend_cancel_right _ _ _ hkey2
  have hfin : pname = n := strAppend_cancel_right _ _ _ hpn
  exact hnotdep (n, r) hnd hfin.symm

theorem C7_witness :
    ¬ ∃ info : PackageInfo,
      ("dev-pkg" ++ "@" ++ info.version, info) ∈
        getLicensesFromPackageJson
          (ReadResult.success
            { dependencies := some [("mit-pkg", "^1.0.0")],
              devDependencies := some [("dev-pkg", "^2.0.0")] })
          (fun name =>
            if name = "mit-pkg" then some { license := some "MIT", version := some "1.0.0" }
            else if name = "dev-pkg" then some { license := some "MIT", version := some "2.0.0" }
            else none) :=
  C7_devdeps_never_read [("mit-pkg", "^1.0.0")] [("dev-pkg", "^2.0.0")]
    (fun name =>
      if name = "mit-pkg" then some { license := some "MIT", version := some "1.0.0" }
      else if name = "dev-pkg" then some { license := some "MIT", version := some "2.0.0" }
      else none)
    "dev-pkg" (by decide) (by decide)

/-- C8: workspace discovery is a total function of the file tree, so it
never raises, and a directory entry whose read fails contributes nothing:
splicing an unreadable directory entry into any directory leaves the
discovered set of every other subtree unchanged, and walking an unreadable
root yields the empty set. -/
theorem C8_errors_absorbed (path : List String) (name : String)
    (before after : List (String × FSTree)) :
    findAllPackageJsonDirs path (FSTree.dir (before ++ (name, FSTree.baddir) :: after)) =
      findAllPackageJsonDirs path (FSTree.dir (before ++ after)) ∧
    findAllPackageJsonDirs path FSTree.baddir = [] := by
  constructor
  · induction before with
    | nil =>
      simp only [List.nil_append]
      rw [findAllPackageJsonDirs]
      by_cases h : name ∈ excludedDirNames
      · simp [h]
      · simp [h, FSTree.isDir, findAllPackageJsonDirs]
    | cons e rest ih =>
      obtain ⟨n1, t1⟩ := e
      simp only [List.cons_append]
      rw [findAllPackageJsonDirs]
      conv_rhs => rw [findAllPackageJsonDirs]
      rw [ih]
  · simp [findAllPackageJsonDirs]

/-- C9: in every report whose licenses mapping carries the non-empty
license strings that resolution actually produces, the violations list is
exactly the sublist of entries whose license fails isLicenseAllowed, in the
iteration order of the mapping, each recorded with the mapping key as
package and the entry license and version fields. -/
theorem C9_violations_exact (allowedLicenses : List String)
    (licenses : List (String × PackageInfo))
    (hne : ∀ p ∈ licenses, p.2.license ≠ "") :
    (checkLicenses allowedLicenses licenses).violations =
      (licenses.filter (fun q => !isLicenseAllowed q.2.license allowedLicenses)).map
        (fun q => { package := q.1, license := q.2.license, version := q.2.version }) := by
  have h := foldl_tallyStep allowedLicenses licenses 0 0 []
  have hv : (checkLicenses allowedLicenses licenses).violations =
      (licenses.filter (fun q => !isLicenseAllowed q.2.license allowedLicenses)).map
        violationOf := by
    simp [checkLicenses, h]
  rw [hv]
  refine List.map_congr_left ?_
  intro q hq
  have hql : q.2.license ≠ "" := hne q (List.mem_filter.mp hq).1
  simp [violationOf, hql]

theorem C9_witness :
    (checkLicenses ["MIT"]
        [("gpl-pkg@1.0.0", { license := "GPL-3.0", version := "1.0.0" }),
         ("mit-pkg@2.0.0", { license := "MIT", version := "2.0.0" })]).violations =
      ([("gpl-pkg@1.0.0", ({ license := "GPL-3.0", version := "1.0.0" } : PackageInfo)),
        ("mit-pkg@2.0.0", { license := "MIT", version := "2.0.0" })].filter
          (fun q => !isLicenseAllowed q.2.license ["MIT"])).map
        (fun q => { package := q.1, license := q.2.license, version := q.2.version }) :=
  C9_violations_exact ["MIT"]
    [("gpl-pkg@1.0.0", { license := "GPL-3.0", version := "1.0.0" }),
     ("mit-pkg@2.0.0", { license := "MIT", version := "2.0.0" })]
    (by decide)

/-- C10: an empty-string entry in the allowlist makes every license that is
non-empty, not the UNKNOWN sentinel and free of prohibited patterns be
accepted, because every string contains the empty string as a substring. -/
theorem C10_empty_entry_allows_all (license : String) (allowedLicenses : List String)
    (hempty : "" ∈ allowedLicenses)
    (h1 : license ≠ "") (h2 : license ≠ "UNKNOWN")
    (h3 : PROHIBITED_PATTERNS.any (fun pat => regexTestCI pat license) = false) :
    isLicenseAllowed license allowedLicenses = true := by
  have hcond : ¬(license = "" ∨ license = "UNKNOWN") := by
    rintro (h | h)
    · exact h1 h
    · exact h2 h
  rw [isLicenseAllowed, if_neg hcond, if_neg (by simp [h3])]
  rw [List.any_eq_true]
  refine ⟨"", hempty, ?_⟩
  have hud : (upperStr "").data = [] := rfl
  show hasSubstr (upperStr license).data (upperStr "").data = true
  rw [hud]
  exact hasSubstr_nil _

theorem C10_witness : isLicenseAllowed "FooBar-1.0" [""] = true :=
  C10_empty_entry_allows_all "FooBar-1.0" [""] (by decide) (by decide) (by decide) (by decide)
